import Mathlib

/-!
Shallow embedding of the fdice dice-expression compiler (src/fdice.js) and proofs
about its specification.

Randomness is modelled explicitly: the random source is a function
`src : Nat -> Nat -> Int` giving, for the k-th call overall and a face count,
the value returned by `random.die(faces)`.  Modifier-level reroll functions are
modelled as `rr : Nat -> Int`, the offset-adjusted value produced by the k-th
fresh die.  Stateful consumption of randomness is explicit: functions take and
return a call counter.  JS exceptions are modelled with `Option`/`Except`.
-/

namespace Fdice

/-- Maximum number of chunks in one expression (MAX_CHUNKS in fdice.js). -/
def MAX_CHUNKS : Nat := 10

/-- Maximum dice in one pool, and the explosion resource bound (MAX_DICE). -/
def MAX_DICE : Nat := 100

/-- Maximum number of faces on a die (MAX_FACES). -/
def MAX_FACES : Nat := 1000

/-- Maximum raw expression length (MAX_LENGTH). -/
def MAX_LENGTH : Nat := 60

/-- JS `rolls.sort(asc)`: stable sort ascending.  On integers the sorted
arrangement is unique, so insertion sort is an exact model. -/
def sortAsc (l : List Int) : List Int := l.insertionSort (fun a b => a ≤ b)

/-- JS `rolls.sort(desc)`: stable sort descending. -/
def sortDesc (l : List Int) : List Int := l.insertionSort (fun a b => a ≥ b)

/-- The reroll modifier `reroll(arg, reroll)`: replace each roll equal to `arg`
with one freshly rolled die (`reroll()[0]`), consuming one random value per
match, left to right.  Returns the new rolls and the advanced call counter. -/
def reroll (arg : Int) (rr : Nat → Int) : List Int → Nat → List Int × Nat
  | [], k => ([], k)
  | r :: rs, k =>
    if r = arg then
      let p := reroll arg rr rs (k + 1)
      (rr k :: p.1, p.2)
    else
      let p := reroll arg rr rs k
      (r :: p.1, p.2)

/-- The count-twice modifier `twice(arg)`: each roll equal to `arg` is
duplicated in place (`rolls.flatMap(r => r === arg ? [r, r] : r)`). -/
def twice (arg : Int) (rolls : List Int) : List Int :=
  (rolls.map (fun r => if r = arg then [r, r] else [r])).flatten

/-- The keep-highest modifier.  JS sorts the caller's array IN PLACE
(`rolls.sort(desc)`) and then `takeWhile(..., (v, i) => i < arg)` keeps the
first `arg` entries.  First component: the returned rolls; second component:
the state of the caller's array after the call (the in-place sort). -/
def keepHighest (arg : Int) (rolls : List Int) : List Int × List Int :=
  ((sortDesc rolls).take arg.toNat, sortDesc rolls)

/-- The keep-lowest modifier, sorting ascending in place and keeping `arg`. -/
def keepLowest (arg : Int) (rolls : List Int) : List Int × List Int :=
  ((sortAsc rolls).take arg.toNat, sortAsc rolls)

/-- The drop-lowest modifier, sorting ascending in place and dropping `arg`. -/
def dropLowest (arg : Int) (rolls : List Int) : List Int × List Int :=
  ((sortAsc rolls).drop arg.toNat, sortAsc rolls)

/-- The drop-highest modifier, sorting descending in place and dropping `arg`. -/
def dropHighest (arg : Int) (rolls : List Int) : List Int × List Int :=
  ((sortDesc rolls).drop arg.toNat, sortDesc rolls)

/-- One cell of the in-progress explosion list: either the string marker `X`
left where an exploded die was, or a numeric roll. -/
inductive Cell where
  | x : Cell
  | v : Int → Cell
deriving DecidableEq

/-- Whether a cell is a roll equal to the explosion target (`i === arg`; the
string marker never equals a number). -/
def cellMatches (arg : Int) : Cell → Bool
  | Cell.x => false
  | Cell.v n => decide (n = arg)

/-- One pass of the explosion loop body:
`newRolls.flatMap(r => r === arg ? ['X', reroll()[0]] : r)`, consuming one
random value per match, left to right. -/
def explodeStep (arg : Int) (rr : Nat → Int) : List Cell → Nat → List Cell × Nat
  | [], k => ([], k)
  | Cell.v n :: cs, k =>
    if n = arg then
      let p := explodeStep arg rr cs (k + 1)
      (Cell.x :: Cell.v (rr k) :: p.1, p.2)
    else
      let p := explodeStep arg rr cs k
      (Cell.v n :: p.1, p.2)
  | Cell.x :: cs, k =>
    let p := explodeStep arg rr cs k
    (Cell.x :: p.1, p.2)

/-- The explosion while-loop.  `fuel` is the sentinel: the loop condition
`sentinel-- > 0 && newRolls.some(i => i === arg)` decrements once per check, and
when the check is reached with a non-positive sentinel the function throws
(`sentinel < 0` after the loop), without re-testing for matches.  `none` models
the RollLimitExceeded throw. -/
def explodeGo (arg : Int) (rr : Nat → Int) : Nat → List Cell → Nat → Option (List Cell × Nat)
  | 0, _, _ => none
  | fuel + 1, cells, k =>
    if cells.any (cellMatches arg) then
      let p := explodeStep arg rr cells k
      explodeGo arg rr fuel p.1 p.2
    else some (cells, k)

/-- The final `newRolls.flatMap(r => r === 'X' ? arg : r)`: each marker becomes
the target value again, numeric rolls stay. -/
def unmark (arg : Int) (cells : List Cell) : List Int :=
  cells.map (fun c => match c with | Cell.x => arg | Cell.v n => n)

/-- The explode modifier `explode(arg, reroll)`.  The sentinel starts at
`MAX_DICE - rolls.length` (non-positive, hence an immediate throw, when the
input already has MAX_DICE or more entries; Nat subtraction models that as
zero fuel). -/
def explode (arg : Int) (rr : Nat → Int) (rolls : List Int) (k : Nat) :
    Option (List Int × Nat) :=
  match explodeGo arg rr (MAX_DICE - rolls.length) (rolls.map Cell.v) k with
  | none => none
  | some p => some (unmark arg p.1, p.2)

/-- Iterating `explodeStep` a given number of passes; used to state exactly when
the loop throws. -/
def explodeIter (arg : Int) (rr : Nat → Int) : Nat → List Cell → Nat → List Cell × Nat
  | 0, cells, k => (cells, k)
  | n + 1, cells, k =>
    let p := explodeStep arg rr cells k
    explodeIter arg rr n p.1 p.2

/-- The seven recognised modifier tokens (after upper-casing in the source). -/
inductive ModTok where
  | r : ModTok
  | t : ModTok
  | bang : ModTok
  | kh : ModTok
  | kl : ModTok
  | dh : ModTok
  | dl : ModTok
deriving DecidableEq

/-- Face specification of a pool: symbolic `f`, symbolic `%`, or numeric. -/
inductive DieSpec where
  | f : DieSpec
  | pct : DieSpec
  | num : Nat → DieSpec
deriving DecidableEq

/-- Structure extracted by the DICE_CHUNK grammar from one dice-pool chunk:
sign, the raw digits of the count group (possibly empty), the face
specification, and the modifier token together with the raw text of its
argument (possibly empty, possibly a bare sign for `[rt!]` modifiers). -/
structure RawDice where
  negative : Bool
  numDigits : List Char
  die : DieSpec
  modTok : Option (ModTok × List Char)
deriving DecidableEq

/-- Numeric value of a run of decimal digits (empty run gives 0, like
lodash `toSafeInteger` on an empty string). -/
def digitsToNat (ds : List Char) : Nat :=
  ds.foldl (fun acc c => acc * 10 + (c.toNat - 48)) 0

/-- Lodash `toSafeInteger` on a modifier argument of shape `[+-]?\d*`:
a bare sign or empty text gives 0.  (The 2^53-1 clamp is unobservable here:
clamped and unclamped values compare identically against rolls bounded by
MAX_FACES and against pool lengths bounded by MAX_DICE.) -/
def restToInt : List Char → Int
  | '+' :: ds => (digitsToNat ds : Int)
  | '-' :: ds => -(digitsToNat ds : Int)
  | ds => (digitsToNat ds : Int)

/-- Modifier token for the `[dk][lh]` family from its two letters. -/
def khTok (c1 c2 : Char) : ModTok :=
  if c1 = 'k' then (if c2 = 'h' then ModTok.kh else ModTok.kl)
  else (if c2 = 'h' then ModTok.dh else ModTok.dl)

/-- Modifier token for the `[rt!]` family from its letter. -/
def rtTok (c : Char) : ModTok :=
  if c = 'r' then ModTok.r else if c = 't' then ModTok.t else ModTok.bang

/-- Whether text matches `[+-]?\d*` (the argument of an `[rt!]` modifier). -/
def rtRestOk : List Char → Bool
  | [] => true
  | c :: r2 =>
    if c = '+' ∨ c = '-' then r2.all Char.isDigit
    else (c :: r2).all Char.isDigit

/-- Match the optional modifier suffix of a dice chunk against
`([dk][lh]\d*|[rt!][+-]?\d*)?` anchored at the end of the chunk.
`some none` means no modifier (empty suffix), `none` means the suffix is
not a legal modifier. -/
def parseModTok : List Char → Option (Option (ModTok × List Char))
  | [] => some none
  | c :: rest =>
    if c = 'd' ∨ c = 'k' then
      match rest with
      | c2 :: r2 =>
        if (c2 = 'l' ∨ c2 = 'h') ∧ r2.all Char.isDigit then
          some (some (khTok c c2, r2))
        else none
      | [] => none
    else if c = 'r' ∨ c = 't' ∨ c = '!' then
      if rtRestOk rest then some (some (rtTok c, rest)) else none
    else none

/-- Match a sign-stripped chunk against the DICE_CHUNK grammar
`(?<num>\d*)d(?<die>f|%|\d+)(?<modifier>...)?` anchored at both ends,
returning the count digits, face spec and modifier. -/
def parseDice (s : List Char) : Option (List Char × DieSpec × Option (ModTok × List Char)) :=
  let p := s.span Char.isDigit
  match p.2 with
  | 'd' :: r2 =>
    match r2 with
    | 'f' :: r3 => (parseModTok r3).map (fun m => (p.1, DieSpec.f, m))
    | '%' :: r3 => (parseModTok r3).map (fun m => (p.1, DieSpec.pct, m))
    | _ =>
      let q := r2.span Char.isDigit
      if q.1 = [] then none
      else (parseModTok q.2).map (fun m => (p.1, DieSpec.num (digitsToNat q.1), m))
  | _ => none

/-- A validated chunk: a signed constant or a signed dice pool. -/
inductive Chunk where
  | const : Int → Chunk
  | dice : RawDice → Chunk
deriving DecidableEq

/-- Strip one optional leading sign; the Bool is whether it was `-`
(`chunk.startsWith('-')`). -/
def stripSign : List Char → Bool × List Char
  | '-' :: r => (true, r)
  | '+' :: r => (false, r)
  | s => (false, s)

/-- Signed integer value of a constant chunk (`toSafeInteger(chunk)`). -/
def constVal : List Char → Int
  | '-' :: r => -(digitsToNat r : Int)
  | '+' :: r => (digitsToNat r : Int)
  | s => (digitsToNat s : Int)

/-- Match one chunk against VALID_CHUNK `^([+-]?)(DICE_CHUNK|\d+)$` and build
its structure.  `none` models `isInvalidChunk` being true.  The dispatch agrees
with `createPart`: a valid chunk is a constant exactly when it has no `d`. -/
def parseChunk (s : List Char) : Option Chunk :=
  let p := stripSign s
  if p.2 ≠ [] ∧ p.2.all Char.isDigit then
    some (Chunk.const (constVal s))
  else
    match parseDice p.2 with
    | some (nds, d, m) => some (Chunk.dice ⟨p.1, nds, d, m⟩)
    | none => none

/-- Chunk splitter `str.split(/(?<![rt!])(?=[+-])/)`, walking the string with
the previous character in hand; a split happens before `+`/`-` when the
previous character is not `r`, `t` or `!`.  A zero-width match at position 0 is
skipped by JS `String.split`, so the first character never opens a new chunk. -/
def chunkGo (prev : Char) (cur : List Char) : List Char → List (List Char)
  | [] => [cur.reverse]
  | c :: rest =>
    if (c = '+' ∨ c = '-') ∧ ¬(prev = 'r' ∨ prev = 't' ∨ prev = '!') then
      cur.reverse :: chunkGo c [c] rest
    else chunkGo c (c :: cur) rest

/-- The `chunk` function of the source: split an expression into chunk strings.
JS `"".split(...)` returns `[""]`. -/
def chunk : List Char → List (List Char)
  | [] => [[]]
  | c :: rest => chunkGo c [c] rest

/-- Normalisation applied inside `parse`:
`flow(toString, toLower, replaceAll(' ', ''))` — lower-case every character and
remove space characters. -/
def normalize (expr : String) : List Char :=
  (expr.toList.map Char.toLower).filter (fun c => c ≠ ' ')

/-- Offset of a face specification (`die === 'F' ? -2 : 0`). -/
def dieOffset : DieSpec → Int
  | DieSpec.f => -2
  | _ => 0

/-- Face count of a face specification (`'%' → 100`, `'F' → 3`, numeric). -/
def dieFaces : DieSpec → Nat
  | DieSpec.f => 3
  | DieSpec.pct => 100
  | DieSpec.num n => n

/-- `defaultModifierArg(modifier, num, lowest, highest)` from the source,
parameter names and order included. -/
def defaultModifierArg (modifier : ModTok) (num lowest highest : Int) : Int :=
  match modifier with
  | ModTok.r => lowest
  | ModTok.t => highest
  | ModTok.bang => highest
  | _ => min 1 (num - 1)

/-- Argument resolution inside `createModifier(modifier, reroll, num, highest,
lowest)`: an empty argument text takes the per-modifier default via the call
`defaultModifierArg(func, num, highest, lowest)` (note the source passes its
`highest` parameter into the `lowest` slot and vice versa), otherwise
`toSafeInteger(rest)`. -/
def createModifierArg (func : ModTok) (rest : List Char) (num highest lowest : Int) : Int :=
  if rest = [] then defaultModifierArg func num highest lowest else restToInt rest

/-- Compile-time and evaluation-time error kinds of the parser. -/
inductive ParseErr where
  | expressionTooLong : ParseErr
  | tooManyChunks : ParseErr
  | invalidChunk : ParseErr
  | tooManyDice : ParseErr
  | dieTooBig : ParseErr
deriving DecidableEq

/-- A compiled dice-pool chunk: the closed-over configuration of `createRoll`
with the modifier argument already resolved (resolution happens at compile
time, when `createModifier` is called). -/
structure DicePool where
  negative : Bool
  num : Nat
  faces : Nat
  offset : Int
  modSpec : Option (ModTok × Int)
deriving DecidableEq

/-- A compiled chunk: a constant or a dice pool. -/
inductive CompiledChunk where
  | const : Int → CompiledChunk
  | dice : DicePool → CompiledChunk
deriving DecidableEq

/-- Compile one dice chunk (`createRoll`): resolve the count (default 1), check
it against MAX_DICE, resolve faces and offset, check MAX_FACES, and resolve the
modifier argument with the pool bounds `1 + offset` and `die + offset`. -/
def compileDice (rd : RawDice) : Except ParseErr DicePool :=
  let num := if rd.numDigits = [] then 1 else digitsToNat rd.numDigits
  if num > MAX_DICE then Except.error ParseErr.tooManyDice
  else
    let offset := dieOffset rd.die
    let faces := dieFaces rd.die
    if faces > MAX_FACES then Except.error ParseErr.dieTooBig
    else
      Except.ok
        ⟨rd.negative, num, faces, offset,
          rd.modTok.map
            (fun m => (m.1, createModifierArg m.1 m.2 (num : Int) (1 + offset) ((faces : Int) + offset)))⟩

/-- Compile one chunk (`createPart`): constants compile to their value, dice
chunks through `compileDice`. -/
def compileChunk : Chunk → Except ParseErr CompiledChunk
  | Chunk.const i => Except.ok (CompiledChunk.const i)
  | Chunk.dice rd => (compileDice rd).map CompiledChunk.dice

/-- Validate every chunk; `none` when any chunk fails the grammar
(`chunks.some(isInvalidChunk)`). -/
def liftParsed : List (List Char) → Option (List Chunk)
  | [] => some []
  | c :: cs =>
    match parseChunk c, liftParsed cs with
    | some p, some ps => some (p :: ps)
    | _, _ => none

/-- Compile every chunk left to right; the first failure aborts
(`chunks.map(createPart)` throws at the first bad chunk). -/
def compileChunks : List Chunk → Except ParseErr (List CompiledChunk)
  | [] => Except.ok []
  | c :: cs =>
    match compileChunk c with
    | Except.error e => Except.error e
    | Except.ok cc =>
      match compileChunks cs with
      | Except.error e => Except.error e
      | Except.ok ccs => Except.ok (cc :: ccs)

/-- The stages of `parse` after normalisation and splitting: the chunk-count
check, grammar validation, and per-chunk compilation. -/
def parseChunksStage (chunks : List (List Char)) : Except ParseErr (List CompiledChunk) :=
  if chunks.length > MAX_CHUNKS then Except.error ParseErr.tooManyChunks
  else
    match liftParsed chunks with
    | none => Except.error ParseErr.invalidChunk
    | some cs => compileChunks cs

/-- The `parse` entry point up to and including per-chunk compilation.  Note
the length check runs on the RAW expression, before normalisation. -/
def parse (expr : String) : Except ParseErr (List CompiledChunk) :=
  if expr.length > MAX_LENGTH then Except.error ParseErr.expressionTooLong
  else parseChunksStage (chunk (normalize expr))

/-- Evaluation-time failures: the explosion resource limit
(RollLimitExceededError), and the TypeError JS raises when
`[].reduce(sum)` is applied to an empty array with no initial value. -/
inductive EvalErr where
  | rollLimitExceeded : EvalErr
  | emptyReduce : EvalErr
deriving DecidableEq

/-- One entry of the unreduced result: a bare constant or a pool array. -/
inductive ChunkOut where
  | const : Int → ChunkOut
  | pool : List Int → ChunkOut
deriving DecidableEq

/-- Result of one evaluator invocation: a reduced sum or the per-chunk
structure. -/
inductive RollResult where
  | num : Int → RollResult
  | nested : List ChunkOut → RollResult
deriving DecidableEq

/-- Apply a resolved modifier to a pool (`createModifier`'s returned function;
identity when there is no modifier).  `rr` is the one-die reroll function
`rollDice(1)` handed to the modifier. -/
def applyModifier (m : Option (ModTok × Int)) (rr : Nat → Int) (rolls : List Int) (k : Nat) :
    Except EvalErr (List Int × Nat) :=
  match m with
  | none => Except.ok (rolls, k)
  | some (tok, arg) =>
    match tok with
    | ModTok.r => Except.ok (reroll arg rr rolls k)
    | ModTok.t => Except.ok (twice arg rolls, k)
    | ModTok.kh => Except.ok ((keepHighest arg rolls).1, k)
    | ModTok.kl => Except.ok ((keepLowest arg rolls).1, k)
    | ModTok.dh => Except.ok ((dropHighest arg rolls).1, k)
    | ModTok.dl => Except.ok ((dropLowest arg rolls).1, k)
    | ModTok.bang =>
      match explode arg rr rolls k with
      | none => Except.error EvalErr.rollLimitExceeded
      | some p => Except.ok p

/-- Evaluate one compiled chunk: roll the base pool (`rollDice(num)`, each die
being `random.die(faces) + offset`), apply the modifier, then negate every
element if the chunk is negative.  `src call faces` is the random source. -/
def evalChunk (src : Nat → Nat → Int) (cc : CompiledChunk) (k : Nat) :
    Except EvalErr (ChunkOut × Nat) :=
  match cc with
  | CompiledChunk.const i => Except.ok (ChunkOut.const i, k)
  | CompiledChunk.dice d =>
    let base := (List.range d.num).map (fun i => src (k + i) d.faces + d.offset)
    let rr := fun j => src j d.faces + d.offset
    match applyModifier d.modSpec rr base (k + d.num) with
    | Except.error e => Except.error e
    | Except.ok (rolls, k2) =>
      Except.ok (ChunkOut.pool (if d.negative then rolls.map (fun r => -r) else rolls), k2)

/-- Evaluate every chunk in order (`parts.map(part => part())`), threading the
random-source call counter. -/
def evalParts (src : Nat → Nat → Int) : List CompiledChunk → Nat → Except EvalErr (List ChunkOut × Nat)
  | [], k => Except.ok ([], k)
  | p :: ps, k =>
    match evalChunk src p k with
    | Except.error e => Except.error e
    | Except.ok (o, k1) =>
      match evalParts src ps k1 with
      | Except.error e => Except.error e
      | Except.ok (os, k2) => Except.ok (o :: os, k2)

/-- `roll().flat()`: one level of flattening, scalars kept as they are. -/
def flattenOuts : List ChunkOut → List Int
  | [] => []
  | ChunkOut.const i :: rest => i :: flattenOuts rest
  | ChunkOut.pool l :: rest => l ++ flattenOuts rest

/-- The compiled evaluator
`(reduce = true) => reduce ? roll().flat().reduce(sum) : roll()`.  JS
`reduce(sum)` with no initial value throws on an empty array and otherwise
folds from the first element. -/
def runEval (parts : List CompiledChunk) (src : Nat → Nat → Int) (reduce : Bool) :
    Except EvalErr RollResult :=
  match evalParts src parts 0 with
  | Except.error e => Except.error e
  | Except.ok (outs, _) =>
    if reduce then
      match flattenOuts outs with
      | [] => Except.error EvalErr.emptyReduce
      | x :: xs => Except.ok (RollResult.num (xs.foldl (fun a b => a + b) x))
    else Except.ok (RollResult.nested outs)

/-- Compile an expression and run the resulting evaluator once. -/
def parseEval (expr : String) (src : Nat → Nat → Int) (reduce : Bool) :
    Except ParseErr (Except EvalErr RollResult) :=
  (parse expr).map (fun parts => runEval parts src reduce)

/-- Lowest possible face value of a pool as the spec words it: 1 for numeric
dice, -1 for Fudge dice, 1 for percentile dice. -/
def specLowestFace : DieSpec → Int
  | DieSpec.f => -1
  | DieSpec.pct => 1
  | DieSpec.num _ => 1

/-- Highest possible face value of a pool as the spec words it: the face count
for numeric dice, +1 for Fudge dice, 100 for percentile dice. -/
def specHighestFace : DieSpec → Int
  | DieSpec.f => 1
  | DieSpec.pct => 100
  | DieSpec.num n => n

/-- Random source of the C4 scenario: `die(6)` yields 3, 2, 4, 1 (the four
base dice, global calls 0-3) and `die(4)` yields 1, 3 (global calls 4-5). -/
def srcC4 : Nat → Nat → Int := fun k f =>
  if f = 6 then [(3 : Int), 2, 4, 1].getD k 0
  else if f = 4 then [(1 : Int), 3].getD (k - 4) 0
  else 0

/-- Random source of the C5 scenario: `die(10)` yields 7, 10, 5, 4, 10, 3. -/
def srcC5 : Nat → Nat → Int := fun k f =>
  if f = 10 then [(7 : Int), 10, 5, 4, 10, 3].getD k 0 else 0

/-- The compiled chunks of `"4d6+1-2d4+2"`. -/
def partsC4 : List CompiledChunk :=
  [CompiledChunk.dice ⟨false, 4, 6, 0, none⟩, CompiledChunk.const 1,
   CompiledChunk.dice ⟨true, 2, 4, 0, none⟩, CompiledChunk.const 2]

/-- The unreduced output of the C4 scenario. -/
def outsC4 : List ChunkOut :=
  [ChunkOut.pool [3, 2, 4, 1], ChunkOut.const 1, ChunkOut.pool [-1, -3], ChunkOut.const 2]

/-- A raw expression of length 61 whose normalised form has length 3. -/
def longExpr : String := "1d6" ++ String.mk (List.replicate 58 ' ')

/-- Descending sort is the reverse of ascending sort: on integers both are the
unique sorted arrangements of one multiset. -/
theorem sortDesc_eq_reverse_sortAsc (l : List Int) : sortDesc l = (sortAsc l).reverse := by
  have h1 : List.Sorted (fun a b : Int => a ≥ b) (sortDesc l) :=
    List.sorted_insertionSort _ l
  have h3 : List.Sorted (fun a b : Int => a ≤ b) (sortAsc l) :=
    List.sorted_insertionSort _ l
  have h2 : List.Sorted (fun a b : Int => a ≥ b) ((sortAsc l).reverse) := by
    rw [List.Sorted, List.pairwise_reverse]
    exact h3
  have hp : (sortDesc l).Perm ((sortAsc l).reverse) :=
    ((List.perm_insertionSort _ l).trans (List.perm_insertionSort _ l).symm).trans
      ((sortAsc l).reverse_perm).symm
  exact List.eq_of_perm_of_sorted hp h1 h2

/-- One explosion pass never shrinks the cell list. -/
theorem explodeStep_length_le (arg : Int) (rr : Nat → Int) :
    ∀ (cs : List Cell) (k : Nat), cs.length ≤ (explodeStep arg rr cs k).1.length := by
  intro cs
  induction cs with
  | nil => intro k; simp [explodeStep]
  | cons c rest ih =>
    intro k
    cases c with
    | x =>
      have := ih k
      simp only [explodeStep, List.length_cons]
      omega
    | v n =>
      by_cases hn : n = arg
      · have := ih (k + 1)
        simp only [explodeStep, if_pos hn, List.length_cons]
        omega
      · have := ih k
        simp only [explodeStep, if_neg hn, List.length_cons]
        omega

/-- The explosion loop never shrinks the cell list. -/
theorem explodeGo_length_le (arg : Int) (rr : Nat → Int) :
    ∀ (fuel : Nat) (cells : List Cell) (k : Nat) (p : List Cell × Nat),
      explodeGo arg rr fuel cells k = some p → cells.length ≤ p.1.length := by
  intro fuel
  induction fuel with
  | zero => intro cells k p h; simp [explodeGo] at h
  | succ n ih =>
    intro cells k p h
    rw [explodeGo] at h
    by_cases hm : cells.any (cellMatches arg) = true
    · rw [if_pos hm] at h
      exact le_trans (explodeStep_length_le arg rr cells k) (ih _ _ _ h)
    · rw [if_neg hm] at h
      have h2 : (cells, k) = p := Option.some.inj h
      rw [← h2]

/-- Unmarking keeps the length. -/
theorem unmark_length (arg : Int) (cells : List Cell) :
    (unmark arg cells).length = cells.length := by
  simp [unmark]

/-- The explosion loop throws exactly when a match is present at the start of
each of the `fuel` checks it has budget for (in particular always when
`fuel = 0`). -/
theorem explodeGo_none_iff (arg : Int) (rr : Nat → Int) :
    ∀ (fuel : Nat) (cells : List Cell) (k : Nat),
      explodeGo arg rr fuel cells k = none ↔
        ∀ j, j < fuel → ((explodeIter arg rr j cells k).1.any (cellMatches arg)) = true := by
  intro fuel
  induction fuel with
  | zero => intro cells k; simp [explodeGo]
  | succ n ih =>
    intro cells k
    rw [explodeGo]
    by_cases hm : cells.any (cellMatches arg) = true
    · rw [if_pos hm, ih]
      constructor
      · intro hall j hj
        cases j with
        | zero => exact hm
        | succ m => exact hall m (by omega)
      · intro hall j hj
        exact hall (j + 1) (by omega)
    · rw [if_neg hm]
      constructor
      · intro h; exact absurd h (by simp)
      · intro hall
        exact absurd (hall 0 (by omega)) hm

/-- Compiling a dice chunk never raises ExpressionTooLong. -/
theorem compileDice_ne_tooLong (rd : RawDice) :
    compileDice rd ≠ Except.error ParseErr.expressionTooLong := by
  unfold compileDice
  split_ifs <;> (try simp) <;> split_ifs <;> simp

/-- Compiling a chunk never raises ExpressionTooLong. -/
theorem compileChunk_ne_tooLong (c : Chunk) :
    compileChunk c ≠ Except.error ParseErr.expressionTooLong := by
  cases c with
  | const i => simp [compileChunk]
  | dice rd =>
    have h1 := compileDice_ne_tooLong rd
    simp only [compileChunk]
    cases h : compileDice rd with
    | error e =>
      rw [h] at h1
      simp only [Except.map]
      simpa using h1
    | ok dp => simp [Except.map]

/-- Compiling a chunk list never raises ExpressionTooLong. -/
theorem compileChunks_ne_tooLong :
    ∀ cs : List Chunk, compileChunks cs ≠ Except.error ParseErr.expressionTooLong := by
  intro cs
  induction cs with
  | nil => simp [compileChunks]
  | cons c cs ih =>
    rw [compileChunks]
    cases h1 : compileChunk c with
    | error e =>
      have h2 := compileChunk_ne_tooLong c
      rw [h1] at h2
      simpa using h2
    | ok cc =>
      cases h2 : compileChunks cs with
      | error e =>
        rw [h2] at ih
        simpa using ih
      | ok ccs => simp

/-- The post-normalisation stages of `parse` never raise ExpressionTooLong. -/
theorem parseChunksStage_ne_tooLong (chunks : List (List Char)) :
    parseChunksStage chunks ≠ Except.error ParseErr.expressionTooLong := by
  unfold parseChunksStage
  split_ifs
  · simp
  · split
    · simp
    · exact compileChunks_ne_tooLong _

/-- Concatenating what the splitter produces restores the traversed suffix. -/
theorem chunkGo_flatten (l : List Char) : ∀ (prev : Char) (cur : List Char),
    (chunkGo prev cur l).flatten = cur.reverse ++ l := by
  induction l with
  | nil => intro prev cur; simp [chunkGo]
  | cons c rest ih =>
    intro prev cur
    rw [chunkGo]
    split
    · simp [ih]
    · rw [ih]; simp

/-- Claim C1, counterexample: a 100-die pool in which no roll matches the
explode target still raises RollLimitExceeded (the sentinel starts at zero and
the loop condition throws before testing for matches), contradicting the
claim that explode returns normally whenever no roll matches, regardless of
pool size. -/
theorem c1_counterexample :
    (∀ r ∈ List.replicate 100 (2 : Int), r ≠ 1)
  ∧ explode 1 (fun _ => 0) (List.replicate 100 2) 0 = none := by
  constructor
  · intro r hr
    rw [List.eq_of_mem_replicate hr]
    decide
  · rfl

/-- Claim C1, amended: the explode modifier raises RollLimitExceeded iff a
roll matching the target is present at the start of each of the first
`MAX_DICE - rolls.length` resolution passes (the resource bound counts loop
passes, not newly introduced dice; when the pool already holds MAX_DICE or
more rolls that is vacuously true, so it raises even with no matches); in
particular, when no roll matches the target, explode returns normally iff the
input pool has fewer than MAX_DICE rolls. -/
theorem c1_explode_limit_iff (arg : Int) (rr : Nat → Int) (rolls : List Int) (k : Nat) :
    (explode arg rr rolls k = none ↔
      ∀ j, j < MAX_DICE - rolls.length →
        ((explodeIter arg rr j (rolls.map Cell.v) k).1.any (cellMatches arg)) = true)
  ∧ ((∀ r ∈ rolls, r ≠ arg) →
      (explode arg rr rolls k = none ↔ MAX_DICE ≤ rolls.length)) := by
  have hbase : explode arg rr rolls k = none ↔
      explodeGo arg rr (MAX_DICE - rolls.length) (rolls.map Cell.v) k = none := by
    unfold explode
    cases h : explodeGo arg rr (MAX_DICE - rolls.length) (rolls.map Cell.v) k <;> simp
  constructor
  · rw [hbase]
    exact explodeGo_none_iff arg rr _ _ _
  · intro hno
    have hm : (rolls.map Cell.v).any (cellMatches arg) = false := by
      rw [List.any_eq_false]
      intro c hc
      obtain ⟨r, hr, rfl⟩ := List.mem_map.mp hc
      simp only [cellMatches, decide_eq_true_eq]
      exact hno r hr
    rw [hbase, explodeGo_none_iff]
    constructor
    · intro h
      by_contra hlt
      have hfuel : 0 < MAX_DICE - rolls.length := by omega
      have h0 := h 0 hfuel
      rw [explodeIter] at h0
      rw [hm] at h0
      exact Bool.noConfusion h0
    · intro h j hj
      omega

/-- Claim C1, witness for the amended theorem at a concrete input. -/
theorem c1_explode_limit_iff_witness :
    (∀ r ∈ [(2 : Int)], r ≠ 1)
  ∧ (explode 1 (fun _ => 0) [(2 : Int)] 0 = none ↔ MAX_DICE ≤ [(2 : Int)].length) :=
  ⟨by decide, (c1_explode_limit_iff 1 (fun _ => 0) [(2 : Int)] 0).2 (by decide)⟩

/-- Claim C2, counterexample: parse applies the length check to the RAW
expression, before whitespace stripping; an expression of raw length 61 whose
normalised form has only 3 characters is rejected with ExpressionTooLong,
contradicting the claim that normalised length governs the check. -/
theorem c2_counterexample :
    longExpr.length = 61
  ∧ (normalize longExpr).length ≤ MAX_LENGTH
  ∧ parse longExpr = Except.error ParseErr.expressionTooLong := by
  refine ⟨by decide, by decide, rfl⟩

/-- Claim C2, amended: parse raises ExpressionTooLong iff the raw expression
length exceeds MAX_LENGTH (60); an expression whose raw length is at most 60
is never rejected for length, whatever its normalised length. -/
theorem c2_parse_length_iff (expr : String) :
    parse expr = Except.error ParseErr.expressionTooLong ↔ MAX_LENGTH < expr.length := by
  unfold parse
  by_cases h : expr.length > MAX_LENGTH
  · simp [h]
  · rw [if_neg h]
    constructor
    · intro hcontra
      exact absurd hcontra (parseChunksStage_ne_tooLong _)
    · intro hlen
      exact absurd hlen h

/-- Claim C3: when a modifier is written without an explicit argument, the
compiled chunk resolves the default as follows — reroll takes the pool's
lowest face value, count-twice and explode take the highest face value
(Fudge dice: -1 and +1; percentile dice: 1 and 100; numeric dice: 1 and the
face count), and every keep/drop variant takes min 1 (count - 1).  The
arguments `1 + offset` and `faces + offset` are exactly those `createRoll`
passes to `createModifier`; concrete parses confirm the wiring end to end. -/
theorem c3_default_modifier_args :
    (∀ (num : Int) (d : DieSpec),
      createModifierArg ModTok.r [] num (1 + dieOffset d) ((dieFaces d : Int) + dieOffset d)
          = specLowestFace d
      ∧ createModifierArg ModTok.t [] num (1 + dieOffset d) ((dieFaces d : Int) + dieOffset d)
          = specHighestFace d
      ∧ createModifierArg ModTok.bang [] num (1 + dieOffset d) ((dieFaces d : Int) + dieOffset d)
          = specHighestFace d
      ∧ createModifierArg ModTok.kh [] num (1 + dieOffset d) ((dieFaces d : Int) + dieOffset d)
          = min 1 (num - 1)
      ∧ createModifierArg ModTok.kl [] num (1 + dieOffset d) ((dieFaces d : Int) + dieOffset d)
          = min 1 (num - 1)
      ∧ createModifierArg ModTok.dh [] num (1 + dieOffset d) ((dieFaces d : Int) + dieOffset d)
          = min 1 (num - 1)
      ∧ createModifierArg ModTok.dl [] num (1 + dieOffset d) ((dieFaces d : Int) + dieOffset d)
          = min 1 (num - 1))
  ∧ parse ("d20r") = Except.ok [CompiledChunk.dice ⟨false, 1, 20, 0, some (ModTok.r, 1)⟩]
  ∧ parse ("4dft") = Except.ok [CompiledChunk.dice ⟨false, 4, 3, -2, some (ModTok.t, 1)⟩]
  ∧ parse ("3dfr") = Except.ok [CompiledChunk.dice ⟨false, 3, 3, -2, some (ModTok.r, -1)⟩]
  ∧ parse ("d%!") = Except.ok [CompiledChunk.dice ⟨false, 1, 100, 0, some (ModTok.bang, 100)⟩]
  ∧ parse ("2d6kh") = Except.ok [CompiledChunk.dice ⟨false, 2, 6, 0, some (ModTok.kh, 1)⟩]
  ∧ parse ("d6dl") = Except.ok [CompiledChunk.dice ⟨false, 1, 6, 0, some (ModTok.dl, 0)⟩] := by
  refine ⟨?_, rfl, rfl, rfl, rfl, rfl, rfl⟩
  intro num d
  cases d <;>
    refine ⟨?_, ?_, ?_, ?_, ?_, ?_, ?_⟩ <;>
      simp [createModifierArg, defaultModifierArg, specLowestFace, specHighestFace,
        dieOffset, dieFaces]

/-- Claim C4, counterexample: for the valid expression 1d6dl1 the unreduced
call returns an empty pool (flattening to an empty sum, 0) while the reduced
call does not return that integer — it fails on the empty reduce — so the
stated equality between flatten-and-sum and the reduced result does not hold
for every valid expression. -/
theorem c4_counterexample :
    parseEval ("1d6dl1") (fun _ _ => 3) false
      = Except.ok (Except.ok (RollResult.nested [ChunkOut.pool []]))
  ∧ flattenOuts [ChunkOut.pool []] = []
  ∧ parseEval ("1d6dl1") (fun _ _ => 3) true = Except.ok (Except.error EvalErr.emptyReduce) :=
  ⟨rfl, rfl, rfl⟩

/-- Claim C4, amended: for every valid expression and random source, whenever
the unreduced result exists and its flattened sequence is non-empty, the
reduced result is exactly the sum of that flattened sequence (when the
flattened sequence is empty the reduced call fails instead); the
"4d6+1-2d4+2" scenario holds as stated — reduced 9, unreduced
[[3,2,4,1], 1, [-1,-3], 2]. -/
theorem c4_unreduced_sum :
    (∀ (expr : String) (parts : List CompiledChunk) (src : Nat → Nat → Int) (outs : List ChunkOut),
      parse expr = Except.ok parts →
      runEval parts src false = Except.ok (RollResult.nested outs) →
      flattenOuts outs ≠ [] →
      runEval parts src true
        = Except.ok (RollResult.num ((flattenOuts outs).foldl (fun a b => a + b) 0)))
  ∧ parse ("4d6+1-2d4+2") = Except.ok partsC4
  ∧ runEval partsC4 srcC4 true = Except.ok (RollResult.num 9)
  ∧ runEval partsC4 srcC4 false = Except.ok (RollResult.nested outsC4) := by
  refine ⟨?_, rfl, rfl, rfl⟩
  intro expr parts src outs hparse hfalse hne
  unfold runEval at hfalse ⊢
  cases hev : evalParts src parts 0 with
  | error e =>
    rw [hev] at hfalse
    exact absurd hfalse (by simp)
  | ok p =>
    obtain ⟨outs2, k2⟩ := p
    rw [hev] at hfalse
    simp only [Bool.false_eq_true, if_false, Except.ok.injEq, RollResult.nested.injEq] at hfalse
    subst hfalse
    cases hfl : flattenOuts outs2 with
    | nil => exact absurd hfl hne
    | cons x xs =>
      simp only [if_true, hfl]
      have : (x :: xs).foldl (fun a b => a + b) 0 = xs.foldl (fun a b => a + b) x := by
        simp
      rw [this]

/-- Claim C4, witness for the amended theorem at the scenario input. -/
theorem c4_unreduced_sum_witness :
    flattenOuts outsC4 ≠ []
  ∧ runEval partsC4 srcC4 true
      = Except.ok (RollResult.num ((flattenOuts outsC4).foldl (fun a b => a + b) 0)) :=
  ⟨by decide,
    c4_unreduced_sum.1 "4d6+1-2d4+2" partsC4 srcC4 outsC4 (by rfl) (by rfl) (by decide)⟩

/-- Claim C5: compiling "4d10!" and evaluating it unreduced with die(10)
sequence 7, 10, 5, 4, 10, 3 yields the pool [7, 10, 10, 3, 5, 4]: original
values equal to the target stay in place, the freshly rolled die lands next to
each, and only new rolls explode further. -/
theorem c5_explode_scenario :
    parse ("4d10!") = Except.ok [CompiledChunk.dice ⟨false, 4, 10, 0, some (ModTok.bang, 10)⟩]
  ∧ runEval [CompiledChunk.dice ⟨false, 4, 10, 0, some (ModTok.bang, 10)⟩] srcC5 false
      = Except.ok (RollResult.nested [ChunkOut.pool [7, 10, 10, 3, 5, 4]]) :=
  ⟨rfl, rfl⟩

/-- Claim C6, counterexample: keep-highest sorts the caller's array in place
(`rolls.sort(desc)` mutates), so after the call the caller's list [1, 3, 2]
has become [3, 2, 1] — not the original order the claim requires. -/
theorem c6_counterexample :
    (keepHighest 1 [(1 : Int), 3, 2]).2 = [3, 2, 1]
  ∧ (keepHighest 1 [(1 : Int), 3, 2]).2 ≠ [(1 : Int), 3, 2] := by
  constructor
  · rfl
  · decide

/-- Claim C6, amended: keep-highest(N) and keep-lowest(N) sort the caller's
roll list in place (descending resp. ascending); after the call the caller's
list holds the same elements as a multiset, but rearranged into sorted order
rather than the original order. -/
theorem c6_sort_in_place (arg : Int) (rolls : List Int) :
    ((keepHighest arg rolls).2.Perm rolls
      ∧ List.Sorted (fun a b : Int => a ≥ b) (keepHighest arg rolls).2)
  ∧ ((keepLowest arg rolls).2.Perm rolls
      ∧ List.Sorted (fun a b : Int => a ≤ b) (keepLowest arg rolls).2) :=
  ⟨⟨List.perm_insertionSort _ rolls, List.sorted_insertionSort _ rolls⟩,
   ⟨List.perm_insertionSort _ rolls, List.sorted_insertionSort _ rolls⟩⟩

/-- Claim C7: the explode modifier always terminates — it either raises
RollLimitExceeded or returns a list no shorter than its input, for every
input list, target and reroll source (including one that always matches). -/
theorem c7_explode_total (arg : Int) (rr : Nat → Int) (rolls : List Int) (k : Nat) :
    explode arg rr rolls k = none
  ∨ ∃ out k2, explode arg rr rolls k = some (out, k2) ∧ rolls.length ≤ out.length := by
  cases h : explodeGo arg rr (MAX_DICE - rolls.length) (rolls.map Cell.v) k with
  | none =>
    exact Or.inl (by simp [explode, h])
  | some p =>
    refine Or.inr ⟨unmark arg p.1, p.2, by simp [explode, h], ?_⟩
    have h1 := explodeGo_length_le arg rr _ _ _ _ h
    have h2 : (unmark arg p.1).length = p.1.length := unmark_length arg p.1
    have h3 : (rolls.map Cell.v).length = rolls.length := by simp
    omega

/-- Claim C8: keep-highest(N) and drop-lowest(count-N) return the same rolls
as multisets, and likewise keep-lowest(N) and drop-highest(count-N), for every
roll list and every N at most the list length. -/
theorem c8_keep_drop_complement (rolls : List Int) (N : Nat) (h : N ≤ rolls.length) :
    ((keepHighest (N : Int) rolls).1).Perm
        ((dropLowest ((rolls.length - N : Nat) : Int) rolls).1)
  ∧ ((keepLowest (N : Int) rolls).1).Perm
        ((dropHighest ((rolls.length - N : Nat) : Int) rolls).1) := by
  have hlen : (sortAsc rolls).length = rolls.length :=
    (List.perm_insertionSort _ rolls).length_eq
  constructor
  · show ((sortDesc rolls).take ((N : Int)).toNat).Perm
        ((sortAsc rolls).drop (((rolls.length - N : Nat) : Int)).toNat)
    rw [Int.toNat_natCast, Int.toNat_natCast, sortDesc_eq_reverse_sortAsc,
      List.take_reverse, hlen]
    exact List.reverse_perm _
  · show ((sortAsc rolls).take ((N : Int)).toNat).Perm
        ((sortDesc rolls).drop (((rolls.length - N : Nat) : Int)).toNat)
    rw [Int.toNat_natCast, Int.toNat_natCast, sortDesc_eq_reverse_sortAsc,
      List.drop_reverse, hlen]
    have heq : rolls.length - (rolls.length - N) = N := by omega
    rw [heq]
    exact (List.reverse_perm _).symm

/-- Claim C8, witness at rolls [1, 3, 2] and N = 2. -/
theorem c8_keep_drop_complement_witness :
    2 ≤ [(1 : Int), 3, 2].length
  ∧ (((keepHighest ((2 : Nat) : Int) [(1 : Int), 3, 2]).1).Perm
        ((dropLowest ((([(1 : Int), 3, 2].length - 2 : Nat)) : Int) [(1 : Int), 3, 2]).1)
    ∧ ((keepLowest ((2 : Nat) : Int) [(1 : Int), 3, 2]).1).Perm
        ((dropHighest ((([(1 : Int), 3, 2].length - 2 : Nat)) : Int) [(1 : Int), 3, 2]).1)) :=
  ⟨by decide, c8_keep_drop_complement [(1 : Int), 3, 2] 2 (by decide)⟩

/-- Claim C9: the valid expression 1d6dl1 always produces an empty flattened
pool, and its reduced evaluation does not return an integer — it fails with
the empty-reduce error (a kind absent from the spec's error table), for every
random source. -/
theorem c9_empty_reduce (src : Nat → Nat → Int) :
    parseEval ("1d6dl1") src true = Except.ok (Except.error EvalErr.emptyReduce) := rfl

/-- Claim C10: concatenating, in order, the chunk strings produced by the
splitter restores exactly the input string, for every input; and the signed
modifier argument of dfr-1 does not open a new chunk. -/
theorem c10_chunk_concat :
    (∀ s : List Char, (chunk s).flatten = s)
  ∧ chunk ("dfr-1".toList) = [("dfr-1".toList)] := by
  refine ⟨?_, rfl⟩
  intro s
  cases s with
  | nil => rfl
  | cons c rest =>
    rw [chunk, chunkGo_flatten]
    rfl

end Fdice
